import Mathlib

/-!
Verification of the invoice-to-PO matching and discrepancy-detection core of the
invoice reconciliation pipeline.

Text is modelled as a list of Unicode code points (`List Nat`); the Python
string operations used by the code (`str.lower`, `str.strip`, `re.sub(r'\s+', ' ', _)`,
`str.endswith`, slicing, `str.split`) are translated pointwise on that
representation (ASCII fragment for case mapping, which is the fragment the
fixed suffix list and all claims exercise).  Python floats are modelled as `ℚ`.

The rapidfuzz scoring strategies (`fuzz.ratio`, `fuzz.partial_ratio`,
`fuzz.token_sort_ratio`, `fuzz.token_set_ratio`) are an external library; they
are modelled from the spec's description of them (section 4.2): full-string
normalized-indel ratio, best substring-window ratio, ratio of the sorted token
join, and ratio over intersection/difference token sets.

Human-readable display strings built with Python format specifiers
(`Discrepancy.details`, fuzzy `match_reason`) carry no decision logic and are
not modelled; every other field of every record is.
-/

/-- A piece of text: the list of its code points. -/
abbrev Str := List Nat

/-- Code points of a string literal (convenience for concrete inputs). -/
def strOf (s : String) : Str := s.data.map Char.toNat

/-! ## Normalizer (`FuzzyMatcher._normalize_text`, src/src/tools/fuzzy_matcher.py:29-41) -/

/-- ASCII whitespace recognized by `str.strip` / `re \s`: space, tab, LF, CR, VT, FF. -/
def isSp (n : Nat) : Bool := n == 32 || n == 9 || n == 10 || n == 13 || n == 11 || n == 12

/-- `str.lower` on one code point (ASCII fragment). -/
def lowerN (n : Nat) : Nat := if 65 ≤ n ∧ n ≤ 90 then n + 32 else n

/-- `str.lower`. -/
def lowerStr (l : Str) : Str := l.map lowerN

/-- `str.lstrip`. -/
def trimLeft (l : Str) : Str := l.dropWhile isSp

/-- `str.rstrip`. -/
def trimRight (l : Str) : Str := (l.reverse.dropWhile isSp).reverse

/-- `str.strip`. -/
def strip (l : Str) : Str := trimRight (trimLeft l)

/-- `re.sub(r'\s+', ' ', text)`: every maximal whitespace run becomes one
space (the single space is emitted at the end of each run). -/
def collapse : Str → Str
  | [] => []
  | [c] => if isSp c then [32] else [c]
  | c :: d :: cs =>
    if isSp c then
      if isSp d then collapse (d :: cs) else 32 :: collapse (d :: cs)
    else c :: collapse (d :: cs)

/-- The fixed legal-entity suffix list, in source order. -/
def suffixes : List Str :=
  [strOf (" ltd"), strOf (" limited"), strOf (" inc"), strOf (" plc"), strOf (" corp"),
   strOf (" co."), strOf (" llc"), strOf (" gmbh"), strOf (" ab")]

/-- One iteration of the suffix loop: `if text.endswith(suffix): text = text[:-len(suffix)]`. -/
def stripOneSuffix (t suf : Str) : Str :=
  if suf.isSuffixOf t then t.take (t.length - suf.length) else t

/-- The suffix loop: each listed suffix is tried once, in order. -/
def stripSuffixes (t : Str) : Str := suffixes.foldl stripOneSuffix t

/-- `FuzzyMatcher._normalize_text`: lower-case, trim, collapse whitespace,
strip the legal-entity suffixes, trim again; empty input yields empty output. -/
def normalizeText (text : Str) : Str :=
  if text = [] then []
  else strip (stripSuffixes (collapse (strip (lowerStr text))))

/-! ## Similarity engine (spec 4.2; models the rapidfuzz strategies used in
`FuzzyMatcher.match_supplier` / `match_product_description`) -/

/-- Longest common subsequence length (the core of normalized-indel similarity). -/
def lcs : Str → Str → Nat
  | [], _ => 0
  | _ :: _, [] => 0
  | a :: as, b :: bs =>
    if a = b then lcs as bs + 1
    else max (lcs (a :: as) bs) (lcs as (b :: bs))
termination_by a b => a.length + b.length

/-- Modelled from the spec: `fuzz.ratio`, the full-string normalized-indel
similarity on 0-100: `100 * (1 - indel_distance / (|a| + |b|))`, where
`indel_distance = |a| + |b| - 2 * lcs a b`; two empty strings score 100. -/
def ratio (a b : Str) : ℚ :=
  if a.length + b.length = 0 then 100
  else 200 * (lcs a b : ℚ) / ((a.length : ℚ) + (b.length : ℚ))

/-- All contiguous windows of length `n` of `l` (the substring windows of the
partial-ratio strategy). -/
def windows (n : Nat) (l : Str) : List Str :=
  (List.range (l.length - n + 1)).map fun i => (l.drop i).take n

/-- Best ratio of `needle` against any window of `hay` of the needle's length. -/
def partScoreAux (needle hay : Str) : ℚ :=
  ((windows needle.length hay).map fun w => ratio needle w).foldr max 0

/-- Modelled from the spec: `fuzz.partial_ratio`, the best substring-window
similarity; the shorter string is slid over the longer one. -/
def partScore (a b : Str) : ℚ :=
  if a.length ≤ b.length then partScoreAux a b else partScoreAux b a

/-- `str.split()`: whitespace-separated tokens, empties dropped. -/
def tokens : Str → List Str
  | [] => []
  | c :: cs =>
    if isSp c then tokens cs
    else (c :: cs.takeWhile fun x => !isSp x) :: tokens (cs.dropWhile fun x => !isSp x)
termination_by l => l.length
decreasing_by
  · exact Nat.lt_succ_self _
  · exact Nat.lt_succ_of_le ((List.dropWhile_suffix _).sublist.length_le)

/-- Lexicographic comparison of token code points (Python string `<=`). -/
def lexLe : Str → Str → Bool
  | [], _ => true
  | _ :: _, [] => false
  | a :: as, b :: bs => if a < b then true else if b < a then false else lexLe as bs

/-- `lexLe` as a relation, for the sorting lemmas. -/
def lexLeP (a b : Str) : Prop := lexLe a b = true

instance : DecidableRel lexLeP := fun a b => inferInstanceAs (Decidable (lexLe a b = true))

/-- Python `sorted` on a token list. -/
def sortTokens (l : List Str) : List Str := List.insertionSort lexLeP l

/-- `" ".join(tokens)`. -/
def joinSpace : List Str → Str
  | [] => []
  | [w] => w
  | w :: ws => w ++ 32 :: joinSpace ws

/-- Modelled from the spec: `fuzz.token_sort_ratio` — ratio of the sorted,
space-joined token lists. -/
def tokenSortRatio (a b : Str) : ℚ :=
  ratio (joinSpace (sortTokens (tokens a))) (joinSpace (sortTokens (tokens b)))

/-- Python `sorted(set(s.split()))`: the deduplicated, sorted token set. -/
def uniqueTokens (l : Str) : List Str := sortTokens (tokens l).dedup

/-- Modelled from the spec: `fuzz.token_set_ratio` — compare the sorted
intersection of the token sets against each side's intersection-plus-difference
join, and the two joins against each other; take the best ratio. -/
def tokenSetRatio (a b : Str) : ℚ :=
  let ta := uniqueTokens a
  let tb := uniqueTokens b
  let sect := ta.filter fun t => decide (t ∈ tb)
  let dab := ta.filter fun t => !decide (t ∈ tb)
  let dba := tb.filter fun t => !decide (t ∈ ta)
  let t0 := strip (joinSpace sect)
  let t1 := strip (t0 ++ 32 :: joinSpace dab)
  let t2 := strip (t0 ++ 32 :: joinSpace dba)
  max (ratio t0 t1) (max (ratio t0 t2) (ratio t1 t2))

/-- `FuzzyMatcher.match_supplier` (fuzzy_matcher.py:43-79): empty input on
either side yields `(False, 0.0)`; otherwise normalize both and take the best
of the four strategy scores; match iff the best score reaches the threshold,
confidence is the best score over 100. -/
def matchSupplier (th : ℚ) (a b : Str) : Bool × ℚ :=
  if a = [] ∨ b = [] then (false, 0)
  else
    let na := normalizeText a
    let nb := normalizeText b
    let best := max (ratio na nb) (max (partScore na nb)
      (max (tokenSortRatio na nb) (tokenSetRatio na nb)))
    (decide (best ≥ th), best / 100)

/-- `FuzzyMatcher.match_product_description` (fuzzy_matcher.py:81-115): like
supplier matching but with the token-set, partial and token-sort strategies. -/
def matchProductDescription (th : ℚ) (a b : Str) : Bool × ℚ :=
  if a = [] ∨ b = [] then (false, 0)
  else
    let na := normalizeText a
    let nb := normalizeText b
    let best := max (tokenSetRatio na nb) (max (partScore na nb) (tokenSortRatio na nb))
    (decide (best ≥ th), best / 100)

/-! ## Data model (src/src/graph/state.py), restricted to the fields the
matching and discrepancy core reads. -/

/-- A line item of an invoice or of a purchase order. -/
structure LineItem where
  description : Str
  quantity : ℚ
  unit_price : ℚ
deriving DecidableEq

/-- The extracted invoice record (`InvoiceData`), core-read fields.
`supplier_name` and `po_reference` are optional (`None` in Python). -/
structure InvoiceData where
  supplier_name : Option Str
  po_reference : Option Str
  line_items : List LineItem
  total : ℚ
deriving DecidableEq

/-- A purchase order record from the PO database. -/
structure PurchaseOrder where
  po_number : Str
  supplier : Str
  line_items : List LineItem
  total : ℚ
deriving DecidableEq

/-- `MatchingResult` (state.py:29-38), core-read fields. -/
structure MatchingResult where
  po_match_confidence : ℚ
  matched_po : Option Str
  match_method : String
  supplier_match : Bool
  line_items_matched : Nat
  line_items_total : Nat
  match_rate : ℚ
deriving DecidableEq

/-- `Discrepancy` (state.py:40-50).  The display-only `details` string is not
modelled; numeric payloads are `Option ℚ` (`None` defaults in Python). -/
structure Discrepancy where
  type : String
  severity : String
  line_item_index : Option Nat := none
  field : String
  invoice_value : Option ℚ := none
  po_value : Option ℚ := none
  variance_percentage : Option ℚ := none
  recommended_action : String
  confidence : ℚ
deriving DecidableEq

/-! ## PO store (`PODatabase`, src/src/tools/po_database.py) -/

/-- `PODatabase.get_po_by_number`: first PO whose number equals the query. -/
def getPoByNumber (pos : List PurchaseOrder) (n : Str) : Option PurchaseOrder :=
  pos.find? fun po => decide (po.po_number = n)

/-! ## Matching agent (`MatchingAgent`, src/src/agents/matching_agent.py) -/

/-- `MatchingAgent._match_by_po_reference` (matching_agent.py:102-117): if the
invoice carries a truthy PO reference and the store resolves it, the match is
exact with confidence 0.99; otherwise `(None, "none", 0.0)`. -/
def matchByPoReference (inv : InvoiceData) (pos : List PurchaseOrder) :
    Option PurchaseOrder × String × ℚ :=
  match inv.po_reference with
  | none => (none, "none", 0)
  | some r =>
    if r = [] then (none, "none", 0)
    else
      match getPoByNumber pos r with
      | some po => (some po, "exact_po_reference", 99/100)
      | none => (none, "none", 0)

/-- Best product-description confidence of one invoice item against all PO
items (the inner loop of `find_best_po_match`, fuzzy_matcher.py:154-162;
`best_item_conf` starts at 0.0 and keeps the largest confidence seen). -/
def bestItemConf (th : ℚ) (invItem : LineItem) (poItems : List LineItem) : ℚ :=
  (poItems.map fun p => (matchProductDescription th invItem.description p.description).2).foldl max 0

/-- Scoring of one candidate PO inside `FuzzyMatcher.find_best_po_match`
(fuzzy_matcher.py:142-186): overall confidence is 0.4 times the supplier
confidence plus 0.6 times the average best item confidence (0.0 when the
invoice has no line items); the candidate is kept only when the overall
confidence reaches `threshold / 100`.  A `None` supplier name behaves exactly
like an empty one (both fail the truthiness test in `match_supplier`), so it
is passed as the empty string.  The display-only `match_reason` is dropped. -/
def poCandidate (th : ℚ) (inv : InvoiceData) (po : PurchaseOrder) : Option (Str × ℚ) :=
  let supplierConf := (matchSupplier th (inv.supplier_name.getD []) po.supplier).2
  let itemConfs := inv.line_items.map fun it => bestItemConf th it po.line_items
  let avgItemConf : ℚ :=
    if inv.line_items = [] then 0 else itemConfs.sum / (inv.line_items.length : ℚ)
  let overall := supplierConf * (4/10) + avgItemConf * (6/10)
  if overall ≥ th / 100 then some (po.po_number, overall) else none

/-- `matches.sort(key=lambda x: x[1], reverse=True)`: sort candidates by
confidence, descending. -/
def sortByConfDesc (l : List (Str × ℚ)) : List (Str × ℚ) :=
  List.insertionSort (fun x y : Str × ℚ => x.2 ≥ y.2) l

/-- `FuzzyMatcher.find_best_po_match` (fuzzy_matcher.py:117-192). -/
def findBestPoMatch (th : ℚ) (inv : InvoiceData) (pos : List PurchaseOrder) :
    List (Str × ℚ) :=
  if pos = [] then []
  else sortByConfDesc (pos.filterMap fun po => poCandidate th inv po)

/-- `MatchingAgent._fuzzy_match` (matching_agent.py:119-150); the agent's
matcher is constructed with threshold 70.0. -/
def fuzzyMatchStage (inv : InvoiceData) (pos : List PurchaseOrder) :
    Option PurchaseOrder × ℚ :=
  match findBestPoMatch 70 inv pos with
  | [] => (none, 0)
  | (n, conf) :: _ => (getPoByNumber pos n, conf)

/-- `MatchingAgent._calculate_match_metrics` (matching_agent.py:152-196):
supplier match flag, count of invoice items with at least one PO item clearing
the product threshold, and the resulting match rate (0.0 for an item-less
invoice). -/
def calculateMatchMetrics (inv : InvoiceData) (po : PurchaseOrder)
    (method : String) (confidence : ℚ) : MatchingResult :=
  let supplierMatch := (matchSupplier 70 (inv.supplier_name.getD []) po.supplier).1
  let matchedCount := (inv.line_items.filter fun it =>
      po.line_items.any fun p => (matchProductDescription 70 it.description p.description).1).length
  let rate : ℚ :=
    if inv.line_items = [] then 0 else (matchedCount : ℚ) / (inv.line_items.length : ℚ)
  { po_match_confidence := confidence, matched_po := some po.po_number, match_method := method,
    supplier_match := supplierMatch, line_items_matched := matchedCount,
    line_items_total := inv.line_items.length, match_rate := rate }

/-- The `no_match` result built in `MatchingAgent.run` (matching_agent.py:77-82). -/
def noMatchResult : MatchingResult :=
  { po_match_confidence := 0, matched_po := none, match_method := "no_match",
    supplier_match := false, line_items_matched := 0, line_items_total := 0, match_rate := 0 }

/-- The degraded result built by `MatchingAgent.run`'s catch-all handler
(matching_agent.py:92-97). -/
def errorMatchResult : MatchingResult :=
  { po_match_confidence := 0, matched_po := none, match_method := "error",
    supplier_match := false, line_items_matched := 0, line_items_total := 0, match_rate := 0 }

/-- The matching algorithm of `MatchingAgent.run` (matching_agent.py:50-83):
exact-reference stage, fuzzy fallback when the stage-1 confidence is below
0.95 (the fuzzy result replaces stage 1 only when strictly more confident),
then metric calculation, or the `no_match` result. -/
def matchingRun (inv : InvoiceData) (pos : List PurchaseOrder) : MatchingResult :=
  let s1 := matchByPoReference inv pos
  let s2 :=
    if s1.2.2 < 95/100 then
      let f := fuzzyMatchStage inv pos
      if f.2 > s1.2.2 then (f.1, "fuzzy_matching", f.2) else s1
    else s1
  match s2.1 with
  | some po => calculateMatchMetrics inv po s2.2.1 s2.2.2
  | none => noMatchResult

/-- `MatchingAgent.run` (matching_agent.py:37-100) at the state level, returning
the stored matching result (if any) and the next step.  The fallible operation
inside the `try` block is the PO-database construction (it raises on a missing
or malformed source), modelled by the `Except` argument; the catch-all handler
turns any such fault into `errorMatchResult` instead of propagating. -/
def matchingAgentRun (db : Except String (List PurchaseOrder))
    (extracted : Option InvoiceData) : Option MatchingResult × String :=
  match db with
  | .error _ => (some errorMatchResult, "discrepancy_detection")
  | .ok pos =>
    match extracted with
    | none => (none, "escalate")
    | some inv => (some (matchingRun inv pos), "discrepancy_detection")

/-! ## Discrepancy agent (`DiscrepancyDetectionAgent`,
src/src/agents/discrepancy_detection_agent.py) -/

/-- `self.price_tolerance = 0.02`. -/
def priceTolerance : ℚ := 2/100

/-- `self.total_tolerance_pct = 0.01`. -/
def totalTolerancePct : ℚ := 1/100

/-- `self.total_tolerance_abs = 5.0`. -/
def totalToleranceAbs : ℚ := 5

/-- `DiscrepancyDetectionAgent._find_matching_po_item` (lines 176-189): first PO
line item whose description fuzzy-matches (a fresh default-threshold-70 matcher). -/
def findMatchingPoItem (invItem : LineItem) (poItems : List LineItem) : Option LineItem :=
  poItems.find? fun p => (matchProductDescription 70 invItem.description p.description).1

/-- The loop body of `_check_price_variances` (lines 89-109) for one invoice
line item (index `i`) and its matched PO item. -/
def priceItemDisc (i : Nat) (invItem poItem : LineItem) : Option Discrepancy :=
  let invPrice := invItem.unit_price
  let poPrice := poItem.unit_price
  let variancePct := if poPrice > 0 then |invPrice - poPrice| / poPrice else 0
  if variancePct > priceTolerance then
    let severity := if variancePct > 15/100 then "high" else "medium"
    some { type := "price_mismatch", severity := severity, line_item_index := some i,
           field := "unit_price", invoice_value := some invPrice, po_value := some poPrice,
           variance_percentage := some (variancePct * 100),
           recommended_action := if variancePct > 15/100 then "escalate_to_human" else "flag_for_review",
           confidence := 99/100 }
  else none

/-- `DiscrepancyDetectionAgent._check_price_variances` (lines 75-111). -/
def checkPriceVariances (inv : InvoiceData) (poItems : List LineItem) : List Discrepancy :=
  inv.line_items.enum.filterMap fun p =>
    (findMatchingPoItem p.2 poItems).bind fun poItem => priceItemDisc p.1 p.2 poItem

/-- The loop body of `_check_quantity_variances` (lines 126-141) for one invoice
line item and its matched PO item. -/
def qtyItemDisc (i : Nat) (invItem poItem : LineItem) : Option Discrepancy :=
  if invItem.quantity ≠ poItem.quantity then
    some { type := "quantity_mismatch", severity := "medium", line_item_index := some i,
           field := "quantity", invoice_value := some invItem.quantity,
           po_value := some poItem.quantity,
           recommended_action := "flag_for_review", confidence := 95/100 }
  else none

/-- `DiscrepancyDetectionAgent._check_quantity_variances` (lines 113-143). -/
def checkQuantityVariances (inv : InvoiceData) (poItems : List LineItem) : List Discrepancy :=
  inv.line_items.enum.filterMap fun p =>
    (findMatchingPoItem p.2 poItems).bind fun poItem => qtyItemDisc p.1 p.2 poItem

/-- `DiscrepancyDetectionAgent._check_total_variance` (lines 145-174). -/
def checkTotalVariance (inv : InvoiceData) (po : PurchaseOrder) : Option Discrepancy :=
  let invTotal := inv.total
  let poTotal := po.total
  let varianceAbs := |invTotal - poTotal|
  let variancePct := if poTotal > 0 then varianceAbs / poTotal else 0
  let tolerance := min totalToleranceAbs (poTotal * totalTolerancePct)
  if varianceAbs > tolerance then
    some { type := "total_variance",
           severity := if variancePct > 10/100 then "high" else "medium",
           field := "total", invoice_value := some invTotal, po_value := some poTotal,
           variance_percentage := some (variancePct * 100),
           recommended_action := if variancePct > 10/100 then "escalate_to_human" else "flag_for_review",
           confidence := 99/100 }
  else none

/-- Truthiness of `not extracted.po_reference`: missing or empty. -/
def refMissing : Option Str → Bool
  | none => true
  | some [] => true
  | some (_ :: _) => false

/-- The `missing_po_reference` discrepancy appended by `run` (lines 56-65);
its confidence is the matcher's own `po_match_confidence`. -/
def missingPoRefDisc (matching : MatchingResult) : Discrepancy :=
  { type := "missing_po_reference", severity := "medium", field := "po_reference",
    invoice_value := none, recommended_action := "flag_for_review",
    confidence := matching.po_match_confidence }

/-- `DiscrepancyDetectionAgent.run` (lines 21-73): with no matched PO the
discrepancy list is empty and control proceeds straight to resolution;
otherwise the price, quantity, total and missing-reference checks run in
order and their findings are concatenated. -/
def discrepancyAgentRun (extracted : InvoiceData) (matchedPo : Option PurchaseOrder)
    (matching : MatchingResult) : List Discrepancy × String :=
  match matchedPo with
  | none => ([], "resolution")
  | some po =>
    let ds := checkPriceVariances extracted po.line_items
      ++ checkQuantityVariances extracted po.line_items
      ++ (checkTotalVariance extracted po).toList
      ++ (if refMissing extracted.po_reference then [missingPoRefDisc matching] else [])
    (ds, "resolution")

/-! ## Spec-side definitions and concrete inputs used by the claim theorems -/

/-- The spec's per-line-item price variance: `|inv_price - po_price| / po_price`,
and 0 when the PO unit price is not positive. -/
def priceVariancePct (invPrice poPrice : ℚ) : ℚ :=
  if poPrice > 0 then |invPrice - poPrice| / poPrice else 0

/-- The spec's relative total variance: `|inv_total - po_total| / po_total`,
and 0 when the PO total is not positive. -/
def totalVariancePct (invTotal poTotal : ℚ) : ℚ :=
  if poTotal > 0 then |invTotal - poTotal| / poTotal else 0

/-- Texts on which `collapse` is a no-op: the only whitespace code point is a
plain space and no two spaces are adjacent. -/
def SpaceNormal (l : Str) : Prop :=
  (∀ x ∈ l, isSp x = true → x = 32) ∧ List.Chain' (fun a b => ¬(a = 32 ∧ b = 32)) l

/-- Concrete invoice: carries PO reference `PO-2024-001`, no line items. -/
def wInvExact : InvoiceData :=
  { supplier_name := none, po_reference := some (strOf ("PO-2024-001")),
    line_items := [], total := 0 }

/-- Concrete purchase order numbered `PO-2024-001`. -/
def wPoExact : PurchaseOrder :=
  { po_number := strOf ("PO-2024-001"), supplier := strOf ("Acme"), line_items := [], total := 0 }

/-- Concrete invoice with no PO reference and no line items. -/
def wInvNoRef : InvoiceData :=
  { supplier_name := none, po_reference := none, line_items := [], total := 0 }

/-- Concrete purchase order used by the missing-reference witness. -/
def wPoPlain : PurchaseOrder :=
  { po_number := strOf ("PO-7"), supplier := strOf ("Acme"), line_items := [], total := 0 }

/-- Concrete fuzzy matching result with confidence 0.7. -/
def wFuzzyMatching : MatchingResult :=
  { po_match_confidence := 7/10, matched_po := some (strOf ("PO-7")),
    match_method := "fuzzy_matching", supplier_match := true, line_items_matched := 0,
    line_items_total := 0, match_rate := 0 }

/-! ## Lemmas: longest common subsequence and the ratio strategy -/

theorem lcs_nil_right (a : Str) : lcs a [] = 0 := by
  cases a <;> simp [lcs]

theorem lcs_comm (a b : Str) : lcs a b = lcs b a := by
  induction a, b using lcs.induct with
  | case1 b => simp [lcs, lcs_nil_right]
  | case2 a as => simp [lcs, lcs_nil_right]
  | case3 as b bs ih =>
    rw [lcs, lcs, if_pos rfl, if_pos rfl, ih]
  | case4 a as b bs h ih1 ih2 =>
    rw [lcs, lcs, if_neg h, if_neg (fun hh => h hh.symm), ih1, ih2, Nat.max_comm]

theorem lcs_le_left (a b : Str) : lcs a b ≤ a.length := by
  induction a, b using lcs.induct with
  | case1 b => simp [lcs]
  | case2 a as => simp [lcs_nil_right]
  | case3 as b bs ih =>
    rw [lcs, if_pos rfl]
    simpa using ih
  | case4 a as b bs h ih1 ih2 =>
    rw [lcs, if_neg h]
    simp only [List.length_cons] at ih1 ih2 ⊢
    omega

theorem lcs_le_right (a b : Str) : lcs a b ≤ b.length := by
  rw [lcs_comm]; exact lcs_le_left b a

theorem ratio_comm (a b : Str) : ratio a b = ratio b a := by
  simp only [ratio, lcs_comm a b, Nat.add_comm a.length b.length,
    add_comm (a.length : ℚ) (b.length : ℚ)]

theorem ratio_le_100 (a b : Str) : ratio a b ≤ 100 := by
  unfold ratio
  split
  · exact le_refl _
  · next hne =>
    have hpos : 0 < a.length + b.length := Nat.pos_of_ne_zero hne
    have hposq : (0 : ℚ) < (a.length : ℚ) + (b.length : ℚ) := by
      have := Nat.cast_pos (α := ℚ).mpr hpos
      push_cast at this
      exact this
    rw [div_le_iff₀ hposq]
    have h1 := lcs_le_left a b
    have h2 := lcs_le_right a b
    have : (200 : ℚ) * (lcs a b : ℚ) ≤ 100 * ((a.length : ℚ) + (b.length : ℚ)) := by
      have hn : 200 * lcs a b ≤ 100 * (a.length + b.length) := by omega
      calc (200 : ℚ) * (lcs a b : ℚ) = ((200 * lcs a b : ℕ) : ℚ) := by push_cast; ring
        _ ≤ ((100 * (a.length + b.length) : ℕ) : ℚ) := by exact_mod_cast hn
        _ = 100 * ((a.length : ℚ) + (b.length : ℚ)) := by push_cast; ring
    linarith

/-! ## Lemmas: the partial (substring-window) strategy -/

theorem partScoreAux_eq_of_length_eq {a b : Str} (h : a.length = b.length) :
    partScoreAux a b = max (ratio a b) 0 := by
  unfold partScoreAux windows
  have hr : List.range 1 = [0] := rfl
  rw [h, Nat.sub_self, Nat.zero_add, hr]
  simp [List.take_length]

theorem partScore_comm (a b : Str) : partScore a b = partScore b a := by
  unfold partScore
  rcases lt_trichotomy a.length b.length with h | h | h
  · rw [if_pos h.le, if_neg (not_le.mpr h)]
  · rw [if_pos h.le, if_pos h.ge, partScoreAux_eq_of_length_eq h,
      partScoreAux_eq_of_length_eq h.symm, ratio_comm]
  · rw [if_neg (not_le.mpr h), if_pos h.le]

theorem foldr_max_le {l : List ℚ} {c : ℚ} (h0 : 0 ≤ c) (h : ∀ x ∈ l, x ≤ c) :
    l.foldr max 0 ≤ c := by
  induction l with
  | nil => simpa using h0
  | cons x xs ih =>
    simp only [List.foldr_cons]
    exact max_le (h x (List.mem_cons_self x xs)) (ih fun y hy => h y (List.mem_cons_of_mem x hy))

theorem partScoreAux_le_100 (a b : Str) : partScoreAux a b ≤ 100 := by
  apply foldr_max_le (by norm_num)
  intro x hx
  rcases List.mem_map.mp hx with ⟨w, _, rfl⟩
  exact ratio_le_100 a w

theorem partScore_le_100 (a b : Str) : partScore a b ≤ 100 := by
  unfold partScore
  split <;> exact partScoreAux_le_100 _ _

theorem tokenSortRatio_comm (a b : Str) : tokenSortRatio a b = tokenSortRatio b a := by
  unfold tokenSortRatio
  exact ratio_comm _ _

theorem tokenSortRatio_le_100 (a b : Str) : tokenSortRatio a b ≤ 100 := ratio_le_100 _ _

/-! ## Lemmas: the lexicographic token order and sorted token sets -/

theorem lexLe_cons_iff {a b : Nat} {as bs : Str} :
    lexLe (a :: as) (b :: bs) = true ↔ a < b ∨ (a = b ∧ lexLe as bs = true) := by
  rw [lexLe]
  rcases Nat.lt_trichotomy a b with h | h | h
  · simp [h]
  · subst h
    simp [Nat.lt_irrefl]
  · have h1 : ¬a < b := Nat.lt_asymm h
    have h2 : a ≠ b := ne_of_gt h
    simp [h, h1, h2]

theorem lexLe_total (a b : Str) : lexLe a b = true ∨ lexLe b a = true := by
  induction a generalizing b with
  | nil => left; rfl
  | cons x xs ih =>
    cases b with
    | nil => right; rfl
    | cons y ys =>
      rcases Nat.lt_trichotomy x y with h | h | h
      · left; exact lexLe_cons_iff.mpr (Or.inl h)
      · rcases ih ys with h2 | h2
        · left; exact lexLe_cons_iff.mpr (Or.inr ⟨h, h2⟩)
        · right; exact lexLe_cons_iff.mpr (Or.inr ⟨h.symm, h2⟩)
      · right; exact lexLe_cons_iff.mpr (Or.inl h)

theorem lexLe_trans {a b c : Str} (h1 : lexLe a b = true) (h2 : lexLe b c = true) :
    lexLe a c = true := by
  induction a generalizing b c with
  | nil => rfl
  | cons x xs ih =>
    cases b with
    | nil => exact absurd h1 (by simp [lexLe])
    | cons y ys =>
      cases c with
      | nil => exact absurd h2 (by simp [lexLe])
      | cons z zs =>
        rcases lexLe_cons_iff.mp h1 with hxy | ⟨hxy, hres1⟩ <;>
          rcases lexLe_cons_iff.mp h2 with hyz | ⟨hyz, hres2⟩
        · exact lexLe_cons_iff.mpr (Or.inl (hxy.trans hyz))
        · exact lexLe_cons_iff.mpr (Or.inl (hyz ▸ hxy))
        · exact lexLe_cons_iff.mpr (Or.inl (hxy ▸ hyz))
        · exact lexLe_cons_iff.mpr (Or.inr ⟨hxy.trans hyz, ih hres1 hres2⟩)

theorem lexLe_antisymm {a b : Str} (h1 : lexLe a b = true) (h2 : lexLe b a = true) :
    a = b := by
  induction a generalizing b with
  | nil =>
    cases b with
    | nil => rfl
    | cons y ys => exact absurd h2 (by simp [lexLe])
  | cons x xs ih =>
    cases b with
    | nil => exact absurd h1 (by simp [lexLe])
    | cons y ys =>
      rcases lexLe_cons_iff.mp h1 with hxy | ⟨hxy, hres1⟩ <;>
        rcases lexLe_cons_iff.mp h2 with hyx | ⟨hyx, hres2⟩
      · exact absurd (hxy.trans hyx) (Nat.lt_irrefl x)
      · exact absurd (hyx ▸ hxy) (Nat.lt_irrefl x)
      · exact absurd (hxy ▸ hyx) (Nat.lt_irrefl x)
      · rw [hxy, ih hres1 hres2]

instance : IsTotal Str lexLeP := ⟨lexLe_total⟩
instance : IsTrans Str lexLeP := ⟨fun _ _ _ => lexLe_trans⟩
instance : IsAntisymm Str lexLeP := ⟨fun _ _ => lexLe_antisymm⟩

theorem sorted_uniqueTokens (l : Str) : List.Sorted lexLeP (uniqueTokens l) :=
  List.sorted_insertionSort lexLeP _

theorem nodup_uniqueTokens (l : Str) : (uniqueTokens l).Nodup :=
  (List.perm_insertionSort lexLeP ((tokens l).dedup)).nodup_iff.mpr (List.nodup_dedup _)

theorem sect_comm (a b : Str) :
    (uniqueTokens a).filter (fun t => decide (t ∈ uniqueTokens b)) =
      (uniqueTokens b).filter (fun t => decide (t ∈ uniqueTokens a)) := by
  have hperm : ((uniqueTokens a).filter fun t => decide (t ∈ uniqueTokens b)).Perm
      ((uniqueTokens b).filter fun t => decide (t ∈ uniqueTokens a)) := by
    refine (List.perm_ext_iff_of_nodup ((nodup_uniqueTokens a).filter _)
      ((nodup_uniqueTokens b).filter _)).mpr ?_
    intro x
    simp only [List.mem_filter, decide_eq_true_eq]
    exact and_comm
  exact List.eq_of_perm_of_sorted hperm
    ((sorted_uniqueTokens a).sublist (List.filter_sublist _))
    ((sorted_uniqueTokens b).sublist (List.filter_sublist _))

theorem tokenSetRatio_comm (a b : Str) : tokenSetRatio a b = tokenSetRatio b a := by
  unfold tokenSetRatio
  dsimp only
  rw [sect_comm a b]
  rw [ratio_comm (strip
      (strip (joinSpace ((uniqueTokens b).filter fun t => decide (t ∈ uniqueTokens a))) ++
        32 :: joinSpace ((uniqueTokens b).filter fun t => !decide (t ∈ uniqueTokens a))))
    (strip
      (strip (joinSpace ((uniqueTokens b).filter fun t => decide (t ∈ uniqueTokens a))) ++
        32 :: joinSpace ((uniqueTokens a).filter fun t => !decide (t ∈ uniqueTokens b))))]
  exact max_left_comm _ _ _

theorem tokenSetRatio_le_100 (a b : Str) : tokenSetRatio a b ≤ 100 := by
  unfold tokenSetRatio
  dsimp only
  exact max_le (ratio_le_100 _ _) (max_le (ratio_le_100 _ _) (ratio_le_100 _ _))

/-! ## Lemmas: symmetry and bounds of the two match functions -/

theorem matchSupplier_comm (th : ℚ) (a b : Str) :
    matchSupplier th a b = matchSupplier th b a := by
  unfold matchSupplier
  by_cases h : a = [] ∨ b = []
  · rw [if_pos h, if_pos h.symm]
  · rw [if_neg h, if_neg fun hh => h hh.symm]
    dsimp only
    rw [ratio_comm (normalizeText a), partScore_comm (normalizeText a),
      tokenSortRatio_comm (normalizeText a), tokenSetRatio_comm (normalizeText a)]

theorem matchProductDescription_comm (th : ℚ) (a b : Str) :
    matchProductDescription th a b = matchProductDescription th b a := by
  unfold matchProductDescription
  by_cases h : a = [] ∨ b = []
  · rw [if_pos h, if_pos h.symm]
  · rw [if_neg h, if_neg fun hh => h hh.symm]
    dsimp only
    rw [tokenSetRatio_comm (normalizeText a), partScore_comm (normalizeText a),
      tokenSortRatio_comm (normalizeText a)]

theorem matchSupplier_conf_le_one (th : ℚ) (a b : Str) : (matchSupplier th a b).2 ≤ 1 := by
  unfold matchSupplier
  by_cases h : a = [] ∨ b = []
  · rw [if_pos h]
    norm_num
  · rw [if_neg h]
    dsimp only
    rw [div_le_one (by norm_num : (0:ℚ) < 100)]
    exact max_le (ratio_le_100 _ _) (max_le (partScore_le_100 _ _)
      (max_le (tokenSortRatio_le_100 _ _) (tokenSetRatio_le_100 _ _)))

/-! ## Lemmas: the normalizer -/

theorem lowerN_idem (n : Nat) : lowerN (lowerN n) = lowerN n := by
  unfold lowerN
  by_cases h : 65 ≤ n ∧ n ≤ 90
  · simp only [if_pos h]
    rw [if_neg (by omega)]
  · simp only [if_neg h]

theorem mem_of_mem_dropWhile {x : Nat} {p : Nat → Bool} {l : Str}
    (h : x ∈ l.dropWhile p) : x ∈ l :=
  (List.dropWhile_suffix p).sublist.subset h

/-- The head of `collapse` on a list starting with a non-space is that head. -/
theorem collapse_head_of_not_sp {d : Nat} (cs : Str) (hd : isSp d = false) :
    (collapse (d :: cs)).head? = some d := by
  cases cs with
  | nil =>
    rw [collapse, if_neg (by simp [hd])]
    rfl
  | cons e es =>
    rw [collapse, if_neg (by simp [hd])]
    rfl

theorem mem_collapse {x : Nat} : ∀ {l : Str}, x ∈ collapse l → x ∈ l ∨ x = 32 := by
  intro l
  induction l using collapse.induct with
  | case1 =>
    intro h
    simp [collapse] at h
  | case2 c hc =>
    intro hm
    rw [collapse, if_pos hc] at hm
    right
    simpa using hm
  | case3 c hc =>
    intro hm
    rw [collapse, if_neg hc] at hm
    left
    exact hm
  | case4 c d cs hc hd ih =>
    intro hm
    rw [collapse, if_pos hc, if_pos hd] at hm
    rcases ih hm with hmem | h32
    · left; exact List.mem_cons_of_mem _ hmem
    · right; exact h32
  | case5 c d cs hc hd ih =>
    intro hm
    rw [collapse, if_pos hc, if_neg hd] at hm
    rcases List.mem_cons.mp hm with h32 | hm2
    · right; exact h32
    · rcases ih hm2 with hmem | h32
      · left; exact List.mem_cons_of_mem _ hmem
      · right; exact h32
  | case6 c d cs hc ih =>
    intro hm
    rw [collapse, if_neg hc] at hm
    rcases List.mem_cons.mp hm with he | hm2
    · left; exact he ▸ List.mem_cons_self _ _
    · rcases ih hm2 with hmem | h32
      · left; exact List.mem_cons_of_mem _ hmem
      · right; exact h32

theorem stripSuffixesList_prefixOf : ∀ (L : List Str) (t : Str), L.foldl stripOneSuffix t <+: t := by
  intro L
  induction L with
  | nil => intro t; exact ⟨[], List.append_nil t⟩
  | cons s L ih =>
    intro t
    have h1 : stripOneSuffix t s <+: t := by
      unfold stripOneSuffix
      split
      · exact ⟨t.drop (t.length - s.length), List.take_append_drop _ t⟩
      · exact ⟨[], List.append_nil t⟩
    exact (ih (stripOneSuffix t s)).trans h1

theorem stripSuffixes_prefixOf (t : Str) : stripSuffixes t <+: t :=
  stripSuffixesList_prefixOf suffixes t

theorem trimRight_prefixOf (l : Str) : trimRight l <+: l := by
  unfold trimRight
  have h1 : l.reverse.dropWhile isSp <:+ l.reverse := List.dropWhile_suffix isSp
  obtain ⟨t, ht⟩ := h1
  refine ⟨t.reverse, ?_⟩
  rw [← List.reverse_append, ht, List.reverse_reverse]

theorem dropWhile_idem (p : Nat → Bool) (l : Str) :
    (l.dropWhile p).dropWhile p = l.dropWhile p := by
  induction l with
  | nil => rfl
  | cons c cs ih =>
    rw [List.dropWhile_cons]
    split
    · exact ih
    · next h => rw [List.dropWhile_cons, if_neg h]

theorem trimLeft_idem (l : Str) : trimLeft (trimLeft l) = trimLeft l := dropWhile_idem isSp l

theorem trimRight_idem (l : Str) : trimRight (trimRight l) = trimRight l := by
  unfold trimRight
  rw [List.reverse_reverse, dropWhile_idem]

theorem trimLeft_of_append {p t : Str} (h : trimLeft (p ++ t) = p ++ t) : trimLeft p = p := by
  cases p with
  | nil => rfl
  | cons c cs =>
    have hc : isSp c = false := by
      by_contra hcc
      rw [Bool.not_eq_false] at hcc
      rw [List.cons_append, trimLeft, List.dropWhile_cons, if_pos hcc] at h
      have hle : ((cs ++ t).dropWhile isSp).length ≤ (cs ++ t).length :=
        (List.dropWhile_suffix isSp).sublist.length_le
      have hlen := congrArg List.length h
      simp [List.length_append] at hlen hle
      omega
    rw [trimLeft, List.dropWhile_cons, if_neg (by simp [hc])]

theorem strip_idem (l : Str) : strip (strip l) = strip l := by
  unfold strip
  have h1 : trimLeft (trimRight (trimLeft l)) = trimRight (trimLeft l) := by
    obtain ⟨t, ht⟩ := trimRight_prefixOf (trimLeft l)
    have hcomb : trimLeft (trimRight (trimLeft l) ++ t) = trimRight (trimLeft l) ++ t := by
      rw [ht]
      exact trimLeft_idem l
    exact trimLeft_of_append hcomb
  rw [h1, trimRight_idem]

theorem strip_subset {x : Nat} {l : Str} (h : x ∈ strip l) : x ∈ l := by
  have h1 : x ∈ trimLeft l := (trimRight_prefixOf (trimLeft l)).sublist.subset h
  exact (List.dropWhile_suffix isSp).sublist.subset h1

theorem dropWhile_head_false {p : Nat → Bool} :
    ∀ {l : Str} {x : Nat} {xs : Str}, l.dropWhile p = x :: xs → p x = false := by
  intro l
  induction l with
  | nil =>
    intro x xs h
    simp at h
  | cons c cs ih =>
    intro x xs h
    rw [List.dropWhile_cons] at h
    split at h
    · exact ih h
    · next hc =>
      injection h with h1 _
      subst h1
      simpa using hc

theorem collapse_spaceNormal : ∀ l : Str, SpaceNormal (collapse l) := by
  intro l
  induction l using collapse.induct with
  | case1 =>
    exact ⟨by simp [collapse], by simp [collapse]⟩
  | case2 c hc =>
    rw [collapse, if_pos hc]
    exact ⟨by simp, by simp⟩
  | case3 c hc =>
    rw [collapse, if_neg hc]
    refine ⟨?_, by simp⟩
    intro x hx hsp
    rcases List.mem_singleton.mp hx with rfl
    exact absurd hsp hc
  | case4 c d cs hc hd ih =>
    rw [collapse, if_pos hc, if_pos hd]
    exact ih
  | case5 c d cs hc hd ih =>
    rw [collapse, if_pos hc, if_neg hd]
    constructor
    · intro x hx hsp
      rcases List.mem_cons.mp hx with h32 | hm
      · exact h32
      · exact ih.1 x hm hsp
    · rw [List.chain'_cons']
      refine ⟨?_, ih.2⟩
      intro y hy hpair
      have hdd : isSp d = false := by simpa using hd
      rw [collapse_head_of_not_sp cs hdd] at hy
      simp only [Option.mem_def, Option.some.injEq] at hy
      subst hy
      rw [hpair.2] at hdd
      simp [isSp] at hdd
  | case6 c d cs hc ih =>
    rw [collapse, if_neg hc]
    constructor
    · intro x hx hsp
      rcases List.mem_cons.mp hx with he | hm
      · subst he
        exact absurd hsp hc
      · exact ih.1 x hm hsp
    · rw [List.chain'_cons']
      refine ⟨?_, ih.2⟩
      intro y _ hpair
      apply hc
      rw [hpair.1]
      rfl

theorem spaceNormal_prefixOf {l t : Str} (h : SpaceNormal t) (hp : l <+: t) : SpaceNormal l := by
  obtain ⟨r, rfl⟩ := hp
  exact ⟨fun x hx => h.1 x (List.mem_append_left r hx), h.2.left_of_append⟩

theorem spaceNormal_suffixOf {l t : Str} (h : SpaceNormal t) (hp : l <:+ t) : SpaceNormal l := by
  obtain ⟨r, rfl⟩ := hp
  exact ⟨fun x hx => h.1 x (List.mem_append_right r hx), h.2.right_of_append⟩

theorem collapse_eq_self : ∀ {l : Str}, SpaceNormal l → collapse l = l := by
  intro l
  induction l using collapse.induct with
  | case1 => intro _; rfl
  | case2 c hc =>
    intro h
    have hc32 : c = 32 := h.1 c (List.mem_cons_self _ _) hc
    rw [collapse, if_pos hc, hc32]
  | case3 c hc =>
    intro _
    rw [collapse, if_neg hc]
  | case4 c d cs hc hd ih =>
    intro h
    have hc32 : c = 32 := h.1 c (List.mem_cons_self _ _) hc
    have hd32 : d = 32 := h.1 d (List.mem_cons_of_mem _ (List.mem_cons_self _ _)) hd
    exact absurd ⟨hc32, hd32⟩ (List.chain'_cons.mp h.2).1
  | case5 c d cs hc hd ih =>
    intro h
    have hc32 : c = 32 := h.1 c (List.mem_cons_self _ _) hc
    have htail : SpaceNormal (d :: cs) :=
      ⟨fun x hx => h.1 x (List.mem_cons_of_mem _ hx), h.2.tail⟩
    rw [collapse, if_pos hc, if_neg hd, ih htail, hc32]
  | case6 c d cs hc ih =>
    intro h
    have htail : SpaceNormal (d :: cs) :=
      ⟨fun x hx => h.1 x (List.mem_cons_of_mem _ hx), h.2.tail⟩
    rw [collapse, if_neg hc, ih htail]

theorem map_lower_eq_self : ∀ {l : Str}, (∀ x ∈ l, lowerN x = x) → lowerStr l = l := by
  intro l
  induction l with
  | nil => intro _; rfl
  | cons c cs ih =>
    intro h
    have h1 := h c (List.mem_cons_self _ _)
    have h2 := ih fun x hx => h x (List.mem_cons_of_mem _ hx)
    calc lowerStr (c :: cs) = lowerN c :: lowerStr cs := rfl
      _ = c :: cs := by rw [h1, h2]

theorem normalizeText_elem_lower (s : Str) : ∀ x ∈ normalizeText s, lowerN x = x := by
  intro x hx
  unfold normalizeText at hx
  split at hx
  · simp at hx
  · have h1 : x ∈ stripSuffixes (collapse (strip (lowerStr s))) := strip_subset hx
    have h2 : x ∈ collapse (strip (lowerStr s)) := (stripSuffixes_prefixOf _).sublist.subset h1
    rcases mem_collapse h2 with h3 | h32
    · have h4 : x ∈ lowerStr s := strip_subset h3
      rcases List.mem_map.mp h4 with ⟨y, _, rfl⟩
      exact lowerN_idem y
    · rw [h32]
      rfl

theorem normalizeText_invariant (s : Str) :
    lowerStr (normalizeText s) = normalizeText s ∧
    collapse (normalizeText s) = normalizeText s ∧
    strip (normalizeText s) = normalizeText s := by
  refine ⟨map_lower_eq_self (normalizeText_elem_lower s), ?_, ?_⟩
  · unfold normalizeText
    split
    · rfl
    · have h0 : SpaceNormal (collapse (strip (lowerStr s))) := collapse_spaceNormal _
      have h1 : SpaceNormal (stripSuffixes (collapse (strip (lowerStr s)))) :=
        spaceNormal_prefixOf h0 (stripSuffixes_prefixOf _)
      have h2 : SpaceNormal (trimLeft (stripSuffixes (collapse (strip (lowerStr s))))) :=
        spaceNormal_suffixOf h1 (List.dropWhile_suffix isSp)
      have h3 : SpaceNormal (strip (stripSuffixes (collapse (strip (lowerStr s))))) :=
        spaceNormal_prefixOf h2 (trimRight_prefixOf _)
      exact collapse_eq_self h3
  · unfold normalizeText
    split
    · rfl
    · exact strip_idem _

theorem normalizeText_eq_of_ne_nil {t : Str} (h : t ≠ []) :
    normalizeText t = strip (stripSuffixes (collapse (strip (lowerStr t)))) := by
  unfold normalizeText
  rw [if_neg h]

theorem foldl_stripOne_noop :
    ∀ (L : List Str) (t : Str), (∀ suf ∈ L, suf.isSuffixOf t = false) →
      L.foldl stripOneSuffix t = t := by
  intro L
  induction L with
  | nil => intro t _; rfl
  | cons s L ih =>
    intro t h
    rw [List.foldl_cons]
    have hs : stripOneSuffix t s = t := by
      unfold stripOneSuffix
      rw [if_neg (by simp [h s (List.mem_cons_self _ _)])]
    rw [hs]
    exact ih t fun suf hm => h suf (List.mem_cons_of_mem _ hm)

/-! ## Support lemmas for the matcher claims -/

theorem calculateMatchMetrics_method (inv : InvoiceData) (po : PurchaseOrder)
    (m : String) (c : ℚ) : (calculateMatchMetrics inv po m c).match_method = m := rfl

theorem calculateMatchMetrics_conf (inv : InvoiceData) (po : PurchaseOrder)
    (m : String) (c : ℚ) : (calculateMatchMetrics inv po m c).po_match_confidence = c := rfl

theorem poCandidate_none_of_no_items {inv : InvoiceData} (hitems : inv.line_items = [])
    (po : PurchaseOrder) : poCandidate 70 inv po = none := by
  have hconf := matchSupplier_conf_le_one 70 (inv.supplier_name.getD []) po.supplier
  unfold poCandidate
  rw [hitems]
  dsimp only
  rw [if_pos rfl, if_neg]
  intro hge
  set c := (matchSupplier 70 (inv.supplier_name.getD []) po.supplier).2
  linarith

/-! ## The claims -/

/-- C1: whenever the invoice carries a non-empty PO reference that exactly
equals the `po_number` of some stored purchase order, the matcher's result has
`match_method = "exact_po_reference"` and `po_match_confidence = 0.99`,
regardless of what fuzzy scoring of any other candidate would yield: the
0.99 exact-stage confidence is at least 0.95, so the fuzzy stage is skipped. -/
theorem exact_po_reference_dominance (inv : InvoiceData) (pos : List PurchaseOrder) (r : Str)
    (href : inv.po_reference = some r) (hne : r ≠ [])
    (hstore : ∃ po ∈ pos, po.po_number = r) :
    (matchingRun inv pos).match_method = "exact_po_reference" ∧
    (matchingRun inv pos).po_match_confidence = 99/100 := by
  have hfind : (getPoByNumber pos r).isSome := by
    unfold getPoByNumber
    rw [List.find?_isSome]
    obtain ⟨po, hmem, hnum⟩ := hstore
    exact ⟨po, hmem, by simp [hnum]⟩
  obtain ⟨po', hpo'⟩ := Option.isSome_iff_exists.mp hfind
  have hstage1 : matchByPoReference inv pos = (some po', "exact_po_reference", 99/100) := by
    unfold matchByPoReference
    rw [href]
    dsimp only
    rw [if_neg hne, hpo']
  unfold matchingRun
  rw [hstage1]
  dsimp only
  rw [if_neg (by norm_num : ¬ (99/100 : ℚ) < 95/100)]
  exact ⟨calculateMatchMetrics_method _ _ _ _, calculateMatchMetrics_conf _ _ _ _⟩

/-- Witness for C1 at a concrete invoice, reference `PO-2024-001`, and a
one-entry store holding that PO. -/
theorem exact_po_reference_dominance_witness :
    (matchingRun wInvExact [wPoExact]).match_method = "exact_po_reference" ∧
    (matchingRun wInvExact [wPoExact]).po_match_confidence = 99/100 :=
  exact_po_reference_dominance wInvExact [wPoExact] (strOf ("PO-2024-001")) rfl (by decide)
    ⟨wPoExact, List.mem_singleton_self _, rfl⟩

/-- C2: for an invoice line item paired with a PO line item, a
`price_mismatch` discrepancy is produced iff the price variance
(`|inv - po| / po`, 0 for a non-positive PO price) strictly exceeds the 2%
tolerance; it carries severity `high` with action `escalate_to_human` exactly
when the variance exceeds 15% and severity `medium` with `flag_for_review`
otherwise, always at confidence 0.99.  In particular a variance of exactly
2.0% (102 vs 100) is not flagged, and 2.01% (102.01 vs 100) is flagged at
severity `medium`. -/
theorem price_variance_policy :
    (∀ (i : Nat) (invItem poItem : LineItem),
        priceItemDisc i invItem poItem =
          if priceVariancePct invItem.unit_price poItem.unit_price > 2/100 then
            some { type := "price_mismatch",
                   severity := if priceVariancePct invItem.unit_price poItem.unit_price > 15/100
                     then "high" else "medium",
                   line_item_index := some i, field := "unit_price",
                   invoice_value := some invItem.unit_price, po_value := some poItem.unit_price,
                   variance_percentage :=
                     some (priceVariancePct invItem.unit_price poItem.unit_price * 100),
                   recommended_action :=
                     if priceVariancePct invItem.unit_price poItem.unit_price > 15/100
                     then "escalate_to_human" else "flag_for_review",
                   confidence := 99/100 }
          else none) ∧
    priceItemDisc 0 { description := [], quantity := 1, unit_price := 102 }
      { description := [], quantity := 1, unit_price := 100 } = none ∧
    (priceItemDisc 0 { description := [], quantity := 1, unit_price := 10201/100 }
      { description := [], quantity := 1, unit_price := 100 }).map Discrepancy.severity
      = some "medium" := by
  refine ⟨fun i invItem poItem => rfl, ?_, ?_⟩
  · norm_num [priceItemDisc, priceTolerance, abs_of_nonneg]
  · norm_num [priceItemDisc, priceTolerance, abs_of_nonneg]

/-- C3: a `total_variance` discrepancy is produced iff the absolute total
variance strictly exceeds `min 5.0 (1% of the PO total)`; severity is `high`
with `escalate_to_human` exactly when the relative variance exceeds 10% and
`medium` with `flag_for_review` otherwise.  In particular for a PO total of
1000 the tolerance is 5.0 (a 5.00 variance is not flagged, 5.01 is), and
1100.00 vs 1000.00 yields `variance_percentage = 10.0` at severity `medium`
with action `flag_for_review`. -/
theorem total_variance_policy :
    (∀ (inv : InvoiceData) (po : PurchaseOrder),
        checkTotalVariance inv po =
          if |inv.total - po.total| > min 5 (po.total * (1/100)) then
            some { type := "total_variance",
                   severity := if totalVariancePct inv.total po.total > 10/100
                     then "high" else "medium",
                   field := "total", invoice_value := some inv.total, po_value := some po.total,
                   variance_percentage := some (totalVariancePct inv.total po.total * 100),
                   recommended_action := if totalVariancePct inv.total po.total > 10/100
                     then "escalate_to_human" else "flag_for_review",
                   confidence := 99/100 }
          else none) ∧
    checkTotalVariance
      { supplier_name := none, po_reference := none, line_items := [], total := 1005 }
      { po_number := [], supplier := [], line_items := [], total := 1000 } = none ∧
    checkTotalVariance
      { supplier_name := none, po_reference := none, line_items := [], total := 100501/100 }
      { po_number := [], supplier := [], line_items := [], total := 1000 } ≠ none ∧
    checkTotalVariance
      { supplier_name := none, po_reference := none, line_items := [], total := 1100 }
      { po_number := [], supplier := [], line_items := [], total := 1000 } =
      some { type := "total_variance", severity := "medium", field := "total",
             invoice_value := some 1100, po_value := some 1000,
             variance_percentage := some 10,
             recommended_action := "flag_for_review", confidence := 99/100 } := by
  refine ⟨fun inv po => rfl, ?_, ?_, ?_⟩
  · norm_num [checkTotalVariance, totalToleranceAbs, totalTolerancePct, abs_of_nonneg]
  · norm_num [checkTotalVariance, totalToleranceAbs, totalTolerancePct, abs_of_nonneg]
    exact Option.some_ne_none _
  · norm_num [checkTotalVariance, totalToleranceAbs, totalTolerancePct, abs_of_nonneg]

/-- C4 (counterexample): `normalize` is NOT idempotent.  On `"a ltd ltd"` the
single pass over the suffix list strips the final `" ltd"` and then moves on,
leaving `"a ltd"`, which a second normalization strips again to `"a"`. -/
theorem normalize_idempotent_counterexample :
    normalizeText (normalizeText (strOf ("a ltd ltd"))) ≠ normalizeText (strOf ("a ltd ltd")) := by
  decide

/-- C4 (amended): `normalize` is idempotent on every input whose normalized
form does not itself still end with one of the legal-entity suffixes — the
single-pass suffix loop is the only source of non-idempotence. -/
theorem normalize_idempotent_conditional (s : Str)
    (h : (suffixes.all fun suf => !(suf.isSuffixOf (normalizeText s))) = true) :
    normalizeText (normalizeText s) = normalizeText s := by
  obtain ⟨hlow, hcol, hstr⟩ := normalizeText_invariant s
  by_cases hnil : normalizeText s = []
  · rw [hnil]
    simp [normalizeText]
  · have hsuf : stripSuffixes (normalizeText s) = normalizeText s := by
      have hall := List.all_eq_true.mp h
      unfold stripSuffixes
      refine foldl_stripOne_noop suffixes _ fun suf hm => ?_
      have hx := hall suf hm
      simpa using hx
    rw [normalizeText_eq_of_ne_nil hnil, hlow, hstr, hcol, hsuf, hstr]

/-- Witness for the amended C4 at `"acme gmbh"`, which normalizes to `"acme"`,
free of residual suffixes. -/
theorem normalize_idempotent_witness :
    normalizeText (normalizeText (strOf ("acme gmbh"))) = normalizeText (strOf ("acme gmbh")) :=
  normalize_idempotent_conditional (strOf ("acme gmbh")) (by decide)

/-- C5: any internal fault during matching (the fallible PO-database
construction inside the agent's `try` block) is caught and never propagates:
the agent terminates normally with `match_method = "error"`,
`po_match_confidence = 0` and `matched_po = none`, and control still moves to
discrepancy detection. -/
theorem matching_fault_degraded_to_error (e : String) (extracted : Option InvoiceData) :
    matchingAgentRun (Except.error e) extracted =
      (some { po_match_confidence := 0, matched_po := none, match_method := "error",
              supplier_match := false, line_items_matched := 0, line_items_total := 0,
              match_rate := 0 }, "discrepancy_detection") := rfl

/-- C6: for every invoice with a matched PO whose PO reference is missing or
empty, the discrepancy list contains a `missing_po_reference` discrepancy with
severity `medium`, action `flag_for_review`, and confidence equal to the
matcher's own `po_match_confidence` — whatever the match method was. -/
theorem missing_po_reference_always_flagged (inv : InvoiceData) (po : PurchaseOrder)
    (matching : MatchingResult) (h : refMissing inv.po_reference = true) :
    ∃ d ∈ (discrepancyAgentRun inv (some po) matching).1,
      d.type = "missing_po_reference" ∧ d.severity = "medium" ∧
      d.recommended_action = "flag_for_review" ∧
      d.confidence = matching.po_match_confidence := by
  refine ⟨missingPoRefDisc matching, ?_, rfl, rfl, rfl, rfl⟩
  unfold discrepancyAgentRun
  dsimp only
  simp [h]

/-- Witness for C6 at a reference-less invoice matched via the fuzzy method
with confidence 0.7. -/
theorem missing_po_reference_always_flagged_witness :
    ∃ d ∈ (discrepancyAgentRun wInvNoRef (some wPoPlain) wFuzzyMatching).1,
      d.type = "missing_po_reference" ∧ d.severity = "medium" ∧
      d.recommended_action = "flag_for_review" ∧
      d.confidence = wFuzzyMatching.po_match_confidence :=
  missing_po_reference_always_flagged wInvNoRef wPoPlain wFuzzyMatching rfl

/-- C7: with no matched PO, discrepancy detection returns the empty list and
routes directly to resolution, for every invoice and matching result — a
deliberate short-circuit, not an error. -/
theorem no_po_short_circuit (inv : InvoiceData) (matching : MatchingResult) :
    discrepancyAgentRun inv none matching = ([], "resolution") := rfl

/-- C8: for an invoice line item paired with a PO line item, a
`quantity_mismatch` discrepancy is produced iff the two quantities are not
exactly equal (no tolerance band), always with severity `medium`, action
`flag_for_review`, confidence 0.95.  In particular quantity 10 vs 10.0 is not
flagged, and 10 vs 10.5 is flagged at severity `medium`. -/
theorem quantity_mismatch_policy :
    (∀ (i : Nat) (invItem poItem : LineItem),
        qtyItemDisc i invItem poItem =
          if invItem.quantity ≠ poItem.quantity then
            some { type := "quantity_mismatch", severity := "medium", line_item_index := some i,
                   field := "quantity", invoice_value := some invItem.quantity,
                   po_value := some poItem.quantity,
                   recommended_action := "flag_for_review", confidence := 95/100 }
          else none) ∧
    qtyItemDisc 0 { description := [], quantity := 10, unit_price := 0 }
      { description := [], quantity := 10, unit_price := 0 } = none ∧
    (qtyItemDisc 0 { description := [], quantity := 10, unit_price := 0 }
      { description := [], quantity := 21/2, unit_price := 0 }).map Discrepancy.severity
      = some "medium" := by
  refine ⟨fun i invItem poItem => rfl, ?_, ?_⟩
  · norm_num [qtyItemDisc]
  · norm_num [qtyItemDisc]

/-- C9: single-string similarity comparison is commutative: for every
threshold and pair of strings, `match_supplier` and
`match_product_description` return the same boolean decision and confidence
when their two arguments are swapped, because every strategy score they take
the maximum of is itself symmetric. -/
theorem similarity_commutative (th : ℚ) (a b : Str) :
    matchSupplier th a b = matchSupplier th b a ∧
    matchProductDescription th a b = matchProductDescription th b a :=
  ⟨matchSupplier_comm th a b, matchProductDescription_comm th a b⟩

/-- C10: an invoice without line items can never be matched by the fuzzy
stage at the default threshold 70: its average item confidence is 0 for every
PO, so every candidate's overall confidence is at most 0.4 < 0.70 and the
candidate list — and therefore the fuzzy stage result — is empty. -/
theorem empty_invoice_never_fuzzy_matched (inv : InvoiceData) (pos : List PurchaseOrder)
    (hitems : inv.line_items = []) (hpos : pos ≠ []) :
    findBestPoMatch 70 inv pos = [] ∧ fuzzyMatchStage inv pos = (none, 0) := by
  have hfb : findBestPoMatch 70 inv pos = [] := by
    unfold findBestPoMatch
    rw [if_neg hpos]
    have hnil : (pos.filterMap fun po => poCandidate 70 inv po) = [] :=
      List.filterMap_eq_nil_iff.mpr fun po _ => poCandidate_none_of_no_items hitems po
    rw [hnil]
    rfl
  refine ⟨hfb, ?_⟩
  unfold fuzzyMatchStage
  rw [hfb]

/-- Witness for C10 at an item-less invoice and a one-entry store. -/
theorem empty_invoice_never_fuzzy_matched_witness :
    findBestPoMatch 70 wInvNoRef [wPoPlain] = [] ∧
    fuzzyMatchStage wInvNoRef [wPoPlain] = (none, 0) :=
  empty_invoice_never_fuzzy_matched wInvNoRef [wPoPlain] rfl (List.cons_ne_nil _ _)
